import Mathlib

/-
Verification of the dice_roll program (dice_roll.py): a shallow embedding of
its data model (the `dice` class), its parser (the token loop of `main`), its
validator (`dice.sanitize`), its roll engine (`dice.roll`, `dice.roll_n`) and
its simulation driver (the trial loops of `main`), together with theorems
settling the specification claims.

Modelling conventions:
 - Python ints are `Int`; Python `ValueError`s are an `Except RollError`
   result, with the error kinds taken from the spec's error taxonomy
   (each raise site of the source maps to one kind).
 - `random.choice(range(n_faces))` is modelled by an injectable draw stream
   `s : Nat -> Int` together with a cursor `k : Nat`: the draw at cursor `k`
   is `s k` (hypotheses `0 <= s k < n_faces` state that the draws are the
   values `random.choice` can produce); every draw advances the cursor.
 - The reroll recursion of `dice.roll` can diverge (unlimited budget with a
   reachable threshold), so `roll` takes a fuel argument and returns `none`
   when the fuel runs out; theorems about terminating runs hypothesise a
   `some` result.
-/

/-- Python `str.split(sep)` for a single-character separator on a list of
characters: `"1d6".split('d') = ["1","6"]`, `"d6".split('d') = ["","6"]`. -/
def splitOnChar (sep : Char) : List Char → List (List Char)
  | [] => [[]]
  | c :: rest =>
    match splitOnChar sep rest with
    | [] => [[]]
    | h :: t => if c = sep then [] :: h :: t else (c :: h) :: t

/-- Python `str.isdigit`: nonempty and all decimal digits. -/
def isdigitStr (s : List Char) : Bool := !s.isEmpty && s.all Char.isDigit

/-- Python `int(...)` on a digit string. -/
def natOfDigits (s : List Char) : Nat :=
  s.foldl (fun a c => 10 * a + (c.toNat - 48)) 0

/-- Error kinds of the spec's error taxonomy; each `raise ValueError` site of
the source is mapped to the kind the spec assigns to it. -/
inductive RollError where
  | FormatError
  | SequenceError
  | DuplicateModifierError
  | ValidationError
  | ConfigConflictError
deriving DecidableEq

/-- The `dice` class: one die group. Field defaults are the source's
`SPEC_DEFS` values (all zero). -/
structure dice where
  n_faces : Int
  n_rolls : Int
  n_rerolls : Int := 0
  reroll_threshold : Int := 0
  n_lowest_dropped : Int := 0
  n_highest_dropped : Int := 0
deriving DecidableEq

/-- Source `SPEC_ARR = ['r', 't', 'l', 'h']`. -/
def SPEC_ARR : List Char := ['r', 't', 'l', 'h']

/-- Source `SPEC_DEFS = {spec: 0 for spec in SPEC_ARR}`. -/
def SPEC_DEFS (_ : Char) : Int := 0

/-- Python `if dice_arr[0] == '': dice_arr[0] = '1'` in `dice.__init__`. -/
def fixEmptyCount : List (List Char) → List (List Char)
  | [] :: rest => ['1'] :: rest
  | l => l

/-- `dice.__init__`: split the token on `'d'`, default the count to 1,
require exactly two digit fields, set `n_rolls` and `n_faces`. -/
def dice.init (roll : List Char) : Except RollError dice :=
  match fixEmptyCount (splitOnChar 'd' roll) with
  | [a, b] =>
    if isdigitStr a ∧ isdigitStr b then
      .ok { n_faces := (natOfDigits b : Int), n_rolls := (natOfDigits a : Int) }
    else .error .FormatError
  | _ => .error .FormatError

/-- `dice.get`: read a parameter by its tag character. -/
def dice.get (d : dice) (s : Char) : Except RollError Int :=
  if s = 'r' then .ok d.n_rerolls
  else if s = 't' then .ok d.reroll_threshold
  else if s = 'l' then .ok d.n_lowest_dropped
  else if s = 'h' then .ok d.n_highest_dropped
  else .error .FormatError

/-- `dice.set`: write a parameter by its tag character; the value 0 for the
reroll tag is stored as -1 (unlimited). -/
def dice.set (d : dice) (s : Char) (v : Int) : Except RollError dice :=
  if s = 'r' ∧ v = 0 then .ok { d with n_rerolls := -1 }
  else if s = 'r' then .ok { d with n_rerolls := v }
  else if s = 't' then .ok { d with reroll_threshold := v }
  else if s = 'l' then .ok { d with n_lowest_dropped := v }
  else if s = 'h' then .ok { d with n_highest_dropped := v }
  else .error .FormatError

/-- `dice.add_spec`: find which single spec tag the token holds, reject a tag
whose field no longer holds its default (already set), split off the numeric
value and store it. -/
def dice.add_spec (d : dice) (spec : List Char) : Except RollError dice :=
  if ¬ ((SPEC_ARR.map (fun x => spec.contains x)).any (fun b => b)) ∨
      ((SPEC_ARR.map (fun x => spec.contains x)).count true ≠ 1) then
    .error .FormatError
  else
    match SPEC_ARR.find? (fun x => spec.contains x) with
    | none => .error .FormatError
    | some val =>
      match d.get val with
      | .error e => .error e
      | .ok cur =>
        if cur ≠ SPEC_DEFS val then .error .DuplicateModifierError
        else
          match splitOnChar val spec with
          | [_, b] =>
            if isdigitStr b then d.set val ((natOfDigits b : Int))
            else .error .FormatError
          | _ => .error .FormatError

/-- `dice.sanitize`: the validator's fatal checks, in source order (the two
`print` warnings are side effects with no bearing on the result). -/
def dice.sanitize (d : dice) : Except RollError Unit :=
  if d.n_rolls ≤ 0 then .error .ValidationError
  else if ¬ ((d.n_rerolls ≠ 0) ↔ (d.reroll_threshold ≠ 0)) then
    .error .ValidationError
  else if d.reroll_threshold ≥ d.n_faces then .error .ValidationError
  else if d.n_lowest_dropped + d.n_highest_dropped > d.n_rolls then
    .error .ValidationError
  else .ok ()

/-- `dice.roll`: draw `s k + 1`, and while the result is at or below the
threshold and the budget is nonzero, decrement the budget and reroll. The
source recursion has no bound, so fuel models a terminating run. -/
def dice.roll : Nat → dice → (Nat → Int) → Nat → Option (Int × dice × Nat)
  | 0, _, _, _ => none
  | fuel + 1, d, s, k =>
    if s k + 1 ≤ d.reroll_threshold ∧ d.n_rerolls ≠ 0 then
      dice.roll fuel { d with n_rerolls := d.n_rerolls - 1 } s (k + 1)
    else
      some (s k + 1, d, k + 1)

/-- The list comprehension `[self.roll() for _ in range(self.n_rolls)]`: the
budget state threads through the whole group (one shared counter). -/
def rollList (fuel : Nat) (s : Nat → Int) :
    Nat → dice → Nat → Option (List Int × dice × Nat)
  | 0, d, k => some ([], d, k)
  | n + 1, d, k =>
    match dice.roll fuel d s k with
    | none => none
    | some (x, d', k') =>
      match rollList fuel s n d' k' with
      | none => none
      | some (xs, d'', k'') => some (x :: xs, d'', k'')

/-- `for _ in range(m): rolls.remove(min(rolls))`; Python raises on an empty
list, modelled as `none`. -/
def dropMinN : Nat → List Int → Option (List Int)
  | 0, l => some l
  | m + 1, l =>
    match l.min? with
    | none => none
    | some x => dropMinN m (l.erase x)

/-- `for _ in range(m): rolls.remove(max(rolls))`. -/
def dropMaxN : Nat → List Int → Option (List Int)
  | 0, l => some l
  | m + 1, l =>
    match l.max? with
    | none => none
    | some x => dropMaxN m (l.erase x)

/-- `dice.roll_n`: roll the whole group, drop the extremes, sum the rest. -/
def dice.roll_n (fuel : Nat) (d : dice) (s : Nat → Int) (k : Nat) :
    Option (Int × dice × Nat) :=
  match rollList fuel s d.n_rolls.toNat d k with
  | none => none
  | some (rolls, d', k') =>
    match dropMinN d'.n_lowest_dropped.toNat rolls with
    | none => none
    | some l1 =>
      match dropMaxN d'.n_highest_dropped.toNat l1 with
      | none => none
      | some l2 => some (l2.sum, d', k')

/-- The source list `INSTRCTN_ARR = ['d','r','t','l','h','A','D','E']`. -/
def INSTRCTN_ARR : List Char := ['d', 'r', 't', 'l', 'h', 'A', 'D', 'E']

/-- `dice_arr[-1]` (the "current" configuration of the parser). -/
def lastD : List dice → Option dice
  | [] => none
  | [d] => some d
  | _ :: rest => lastD rest

/-- In-place mutation of `dice_arr[-1]`: replace the last element. -/
def setLast : List dice → dice → List dice
  | [], _ => []
  | [_], d => [d]
  | x :: rest, d => x :: setLast rest d

/-- The source's `instruction` list: which of the eight tag characters the
token holds (`[bool(spec.find(x)+1) for x in INSTRCTN_ARR]`). -/
def instructionOf (spec : List Char) : List Bool :=
  INSTRCTN_ARR.map (fun x => spec.contains x)

/-- One iteration of `main`'s token loop: classify the token by which tag
characters it holds (the sum of the `instruction` flags must be exactly one),
then append a new die, apply a modifier to the current die, or apply a
shorthand. The shorthand precondition `n_rolls == 1` is tested only for the
'A' and 'D' flags (`instruction[5:7]` in the source), not for 'E'. -/
def processToken (ds : List dice) (spec : List Char) : Except RollError (List dice) :=
  if (instructionOf spec).count true ≠ 1 then .error .FormatError
  else if spec.contains 'd' then (dice.init spec).map (fun d => ds ++ [d])
  else
    match lastD ds with
    | none => .error .SequenceError
    | some last =>
      if spec.contains 'r' ∨ spec.contains 't' ∨ spec.contains 'l' ∨ spec.contains 'h' then
        (last.add_spec spec).map (setLast ds)
      else if (spec.contains 'A' ∨ spec.contains 'D') ∧ last.n_rolls ≠ 1 then
        .error .SequenceError
      else if spec.contains 'A' then
        (({ last with n_rolls := 2 } : dice).add_spec ['l', '1']).map (setLast ds)
      else if spec.contains 'D' then
        (({ last with n_rolls := 2 } : dice).add_spec ['h', '1']).map (setLast ds)
      else if spec.contains 'E' then
        (({ last with n_rolls := 3 } : dice).add_spec ['l', '2']).map (setLast ds)
      else .ok ds

/-- The token loop of `main`, threading the growing configuration list. -/
def parseTokens : List (List Char) → List dice → Except RollError (List dice)
  | [], ds => .ok ds
  | tok :: rest, ds =>
    match processToken ds tok with
    | .error e => .error e
    | .ok ds' => parseTokens rest ds'

/-- `main`'s parse of the full token sequence, from the empty list. -/
def parseRolls (toks : List (List Char)) : Except RollError (List dice) :=
  parseTokens toks []

/-- `for d in dice_arr: d.sanitize()`. -/
def sanitizeAll : List dice → Except RollError Unit
  | [] => .ok ()
  | d :: rest =>
    match d.sanitize with
    | .error e => .error e
    | .ok _ => sanitizeAll rest

/-- The optional command-line arguments consumed by `main`. -/
structure Args where
  ntests : Option Int
  freqtest : Bool

/-- Source `N_FREQTEST = int(1e5)`. -/
def N_FREQTEST : Int := 100000

/-- `main`'s trial-count logic: `--freqtest` with `--ntests` is a conflict;
otherwise the count is `ntests` when given (default 1), and the frequentist
constant when the flag is set. -/
def computeNTests (a : Args) : Except RollError Int :=
  if a.freqtest ∧ a.ntests.isSome then .error .ConfigConflictError
  else .ok (if a.freqtest then N_FREQTEST
            else match a.ntests with | some n => n | none => 1)

/-- One trial: `[d.roll_n() for d in deepcopy(dice_arr)]` — every die group
starts from its original (deep-copied) state; only the draw cursor threads
through the groups. -/
def rollTrial (fuel : Nat) (s : Nat → Int) :
    List dice → Nat → Option (List Int × Nat)
  | [], k => some ([], k)
  | d :: rest, k =>
    match dice.roll_n fuel d s k with
    | none => none
    | some (x, _, k') =>
      match rollTrial fuel s rest k' with
      | none => none
      | some (xs, k'') => some (x :: xs, k'')

/-- The explicit-mode loop of `main`: `n` trials, each from a fresh deep copy
of the configuration list, collecting the per-trial result rows. -/
def runTrials (fuel : Nat) (s : Nat → Int) (ds : List dice) :
    Nat → Nat → Option (List (List Int) × Nat)
  | 0, k => some ([], k)
  | n + 1, k =>
    match rollTrial fuel s ds k with
    | none => none
    | some (xs, k') =>
      match runTrials fuel s ds n k' with
      | none => none
      | some (rest, k'') => some (xs :: rest, k'')

/-- The frequentist loop of `main`: `n` trials, each from a fresh deep copy,
accumulating `sum_arr[i_die] += deepcopy(d).roll_n()`. -/
def runFreq (fuel : Nat) (s : Nat → Int) (ds : List dice) :
    Nat → Nat → List Int → Option (List Int × Nat)
  | 0, k, sums => some (sums, k)
  | n + 1, k, sums =>
    match rollTrial fuel s ds k with
    | none => none
    | some (xs, k') => runFreq fuel s ds n k' (List.zipWith (fun a b => a + b) sums xs)

/-- The simulation output: either the per-trial rows of explicit mode, or the
per-configuration accumulated sums of frequentist mode (printed by the source
as `sum / n_tests`). -/
inductive SimOutput where
  | trials : List (List Int) → SimOutput
  | freq : List Int → SimOutput
deriving DecidableEq

/-- Whether an output is the explicit-mode per-trial form. -/
def SimOutput.isTrials : SimOutput → Bool
  | .trials _ => true
  | .freq _ => false

/-- The roll-and-print stage of `main`: the branch is chosen by comparing the
trial count with `N_FREQTEST`, exactly as `if n_tests == N_FREQTEST:` does. -/
def runSim (fuel : Nat) (ds : List dice) (n_tests : Int) (s : Nat → Int) (k : Nat) :
    Option SimOutput :=
  if n_tests = N_FREQTEST then
    (runFreq fuel s ds n_tests.toNat k (List.replicate ds.length 0)).map
      (fun p => SimOutput.freq p.1)
  else
    (runTrials fuel s ds n_tests.toNat k).map (fun p => SimOutput.trials p.1)

/-- Spec-words model for the reroll-budget refinement comparison (claim C2):
rolls each die of the group with its own fresh copy of the whole configuration
(hence its own reroll budget), as the spec sentence "at most N rerolls per
individual die" describes; only the draw cursor threads between the dice. -/
def specRollListPerDie (fuel : Nat) (s : Nat → Int) (d : dice) :
    Nat → Nat → Option (List Int × Nat)
  | 0, k => some ([], k)
  | n + 1, k =>
    match dice.roll fuel d s k with
    | none => none
    | some (x, _, k') =>
      match specRollListPerDie fuel s d n k' with
      | none => none
      | some (xs, k'') => some (x :: xs, k'')

/-- Example group for claim C2: 2 dice with 6 faces, reroll budget 1,
reroll threshold 1. -/
def d2ex : dice := ⟨6, 2, 1, 1, 0, 0⟩

/-- Example draw stream for claim C2: draws 0, 0, 0, then 3 (die values 1,
1, 1, then 4). -/
def s2ex : Nat → Int := fun k => if k < 3 then 0 else 3

/-- Claim C1 (code_bug evidence): the elite shorthand "E" does NOT share the
`roll_count == 1` precondition of "A" and "D". On the token sequence
["2d6", "E"] the parser raises no SequenceError: it accepts the sequence,
silently setting `n_rolls = 3` and `n_lowest_dropped = 2`, and the validator
accepts the result — while ["2d6", "A"] and ["2d6", "D"] both fail with
SequenceError. The source's guard tests `instruction[5:7]`, which covers only
the 'A' and 'D' flags, although its own error message reads "A, D, and E only
work if n_rolls is 1." -/
theorem C1_elite_unchecked :
    parseRolls [['2', 'd', '6'], ['A']] = .error .SequenceError ∧
    parseRolls [['2', 'd', '6'], ['D']] = .error .SequenceError ∧
    parseRolls [['2', 'd', '6'], ['E']] = .ok [⟨6, 3, 0, 0, 2, 0⟩] ∧
    sanitizeAll [⟨6, 3, 0, 0, 2, 0⟩] = .ok () :=
  ⟨rfl, rfl, rfl, rfl⟩

/-- Claim C5 (counterexample): parsing the token sequence ["1d6", "A"] does
not fail — it succeeds, because `roll_count` IS 1 when "A" is applied. -/
theorem C5_counterexample :
    parseRolls [['1', 'd', '6'], ['A']] = .ok [⟨6, 2, 0, 0, 1, 0⟩] := rfl

/-- Claim C5 (amended): ["1d6", "A"] parses successfully into a 2d6
drop-lowest-1 configuration, because `roll_count` is 1 at the time "A" is
applied; the SequenceError occurs instead when `roll_count` is not 1, as on
["2d6", "A"]. -/
theorem C5_amended :
    parseRolls [['1', 'd', '6'], ['A']] = .ok [⟨6, 2, 0, 0, 1, 0⟩] ∧
    parseRolls [['2', 'd', '6'], ['A']] = .error .SequenceError :=
  ⟨rfl, rfl⟩

/-- Claim C3 (counterexample): a second occurrence of the reroll-threshold
modifier is NOT always an error. On ["1d6", "t0", "t3"] the first `t0` stores
the default value 0, so the duplicate check (which compares the field against
its default) does not fire and the second `t3` silently overwrites it. -/
theorem C3_counterexample :
    parseRolls [['1', 'd', '6'], ['t', '0'], ['t', '3']] =
      .ok [⟨6, 1, 0, 3, 0, 0⟩] := rfl

/-- Claim C2 (counterexample): with group `d2ex` (2 dice, budget 1, threshold
1) and draws `s2ex`, the source's group roll returns total 2 — the single
shared budget is exhausted by the first die, so the second die's 1 is kept —
while the per-die-budget reading of the spec would reroll the second die as
well and return total 5. -/
theorem C2_counterexample :
    dice.roll_n 10 d2ex s2ex 0 = some (2, { d2ex with n_rerolls := 0 }, 3) ∧
    (specRollListPerDie 10 s2ex d2ex 2 0).map (fun p => p.1.sum) = some 5 :=
  ⟨rfl, rfl⟩

/-- On a token with tag 'r' and digit body, `add_spec` reduces to the
duplicate check against the default followed by the write. -/
theorem add_spec_r2 (d : dice) :
    d.add_spec ['r', '2'] =
      if d.n_rerolls ≠ (0 : Int) then .error .DuplicateModifierError
      else .ok { d with n_rerolls := 2 } := rfl

/-- Tag 't' instance of the `add_spec` reduction. -/
theorem add_spec_t3 (d : dice) :
    d.add_spec ['t', '3'] =
      if d.reroll_threshold ≠ (0 : Int) then .error .DuplicateModifierError
      else .ok { d with reroll_threshold := 3 } := rfl

/-- Tag 'l' instance of the `add_spec` reduction. -/
theorem add_spec_l1 (d : dice) :
    d.add_spec ['l', '1'] =
      if d.n_lowest_dropped ≠ (0 : Int) then .error .DuplicateModifierError
      else .ok { d with n_lowest_dropped := 1 } := rfl

/-- Tag 'h' instance of the `add_spec` reduction. -/
theorem add_spec_h1 (d : dice) :
    d.add_spec ['h', '1'] =
      if d.n_highest_dropped ≠ (0 : Int) then .error .DuplicateModifierError
      else .ok { d with n_highest_dropped := 1 } := rfl

/-- Claim C3 (amended): a second occurrence of a modifier raises
DuplicateModifierError exactly when the first occurrence left the field
different from its default 0. For reroll-count this is every successful first
occurrence (its value 0 is stored as -1), so a second 'r' always errors, as on
["1d6", "r1", "r2"]; for reroll-threshold / drop-lowest / drop-highest a first
occurrence with value 0 leaves the default in place and a second occurrence
silently overwrites it. Written as the single token "1d6r1r2", the input is
instead rejected as malformed (two tag characters). -/
theorem C3_amended (d : dice) :
    (d.n_rerolls ≠ 0 → d.add_spec ['r', '2'] = .error .DuplicateModifierError) ∧
    (d.reroll_threshold ≠ 0 → d.add_spec ['t', '3'] = .error .DuplicateModifierError) ∧
    (d.n_lowest_dropped ≠ 0 → d.add_spec ['l', '1'] = .error .DuplicateModifierError) ∧
    (d.n_highest_dropped ≠ 0 → d.add_spec ['h', '1'] = .error .DuplicateModifierError) ∧
    (∀ d', d.add_spec ['r', '2'] = .ok d' → d'.n_rerolls ≠ 0) ∧
    (d.reroll_threshold = 0 →
      d.add_spec ['t', '3'] = .ok { d with reroll_threshold := 3 }) ∧
    parseRolls [['1', 'd', '6'], ['r', '1'], ['r', '2']] =
      .error .DuplicateModifierError ∧
    parseRolls [['1', 'd', '6', 'r', '1', 'r', '2']] = .error .FormatError := by
  refine ⟨?_, ?_, ?_, ?_, ?_, ?_, rfl, rfl⟩
  · intro h; rw [add_spec_r2, if_pos h]
  · intro h; rw [add_spec_t3, if_pos h]
  · intro h; rw [add_spec_l1, if_pos h]
  · intro h; rw [add_spec_h1, if_pos h]
  · intro d' h
    rw [add_spec_r2] at h
    by_cases hr : d.n_rerolls ≠ (0 : Int)
    · rw [if_pos hr] at h; cases h
    · rw [if_neg hr] at h
      cases h
      simp
  · intro h; rw [add_spec_t3, if_neg (by simp [h])]

/-- Claim C3 (witness): the amended theorem applied at two concrete
configurations — one with every modifier field set, one with the threshold at
its default. -/
theorem C3_amended_witness :
    ((⟨6, 1, 5, 2, 1, 1⟩ : dice).n_rerolls ≠ 0 ∧
      (⟨6, 1, 5, 2, 1, 1⟩ : dice).add_spec ['r', '2'] =
        .error .DuplicateModifierError) ∧
    ((⟨6, 1, 0, 0, 0, 0⟩ : dice).reroll_threshold = 0 ∧
      (⟨6, 1, 0, 0, 0, 0⟩ : dice).add_spec ['t', '3'] =
        .ok ⟨6, 1, 0, 3, 0, 0⟩) :=
  ⟨⟨by decide, (C3_amended ⟨6, 1, 5, 2, 1, 1⟩).1 (by decide)⟩,
   ⟨rfl, (C3_amended ⟨6, 1, 0, 0, 0, 0⟩).2.2.2.2.2.1 rfl⟩⟩

/-- A terminating single-die roll starting with a nonnegative budget ends with
a nonnegative budget no larger than the initial one, and consumes one draw per
reroll plus one for the initial roll. -/
theorem roll_budget (fuel : Nat) :
    ∀ (d : dice) (s : Nat → Int) (k : Nat) (x : Int) (d' : dice) (k' : Nat),
      0 ≤ d.n_rerolls → dice.roll fuel d s k = some (x, d', k') →
      0 ≤ d'.n_rerolls ∧ d'.n_rerolls ≤ d.n_rerolls ∧
        (k' : Int) = k + 1 + (d.n_rerolls - d'.n_rerolls) := by
  induction fuel with
  | zero => intro d s k x d' k' _ h; simp [dice.roll] at h
  | succ fuel ih =>
    intro d s k x d' k' hb h
    simp only [dice.roll] at h
    split at h
    · rename_i hcond
      have hb' : 0 ≤ ({ d with n_rerolls := d.n_rerolls - 1 } : dice).n_rerolls := by
        simp only []
        omega
      have := ih _ s (k + 1) x d' k' hb' h
      simp only [] at this ⊢
      obtain ⟨h1, h2, h3⟩ := this
      refine ⟨h1, by omega, by push_cast at h3 ⊢; omega⟩
    · simp only [Option.some.injEq, Prod.mk.injEq] at h
      obtain ⟨-, hd, hk⟩ := h
      subst hd; subst hk
      push_cast
      omega

/-- Claim C2 (amended): the reroll budget is one counter shared by the whole
group within a trial, not a per-die allowance. Rolling the whole group from a
nonnegative budget N leaves a final budget between 0 and N, and the draws
consumed are one per die plus one per reroll taken from the shared budget —
so at most N rerolls happen in total across all dice of the group. -/
theorem C2_amended (fuel : Nat) (s : Nat → Int) :
    ∀ (n : Nat) (d : dice) (k : Nat) (rolls : List Int) (d' : dice) (k' : Nat),
      0 ≤ d.n_rerolls → rollList fuel s n d k = some (rolls, d', k') →
      0 ≤ d'.n_rerolls ∧ d'.n_rerolls ≤ d.n_rerolls ∧
        (k' : Int) = k + n + (d.n_rerolls - d'.n_rerolls) := by
  intro n
  induction n with
  | zero =>
    intro d k rolls d' k' hb h
    simp only [rollList, Option.some.injEq, Prod.mk.injEq] at h
    obtain ⟨-, hd, hk⟩ := h
    subst hd; subst hk
    omega
  | succ n ih =>
    intro d k rolls d' k' hb h
    simp only [rollList] at h
    split at h
    · cases h
    · rename_i x d1 k1 heq
      split at h
      · cases h
      · rename_i xs d2 k2 heq2
        simp only [Option.some.injEq, Prod.mk.injEq] at h
        obtain ⟨-, hd, hk⟩ := h
        subst hd; subst hk
        obtain ⟨h1, h2, h3⟩ := roll_budget fuel d s k x d1 k1 hb heq
        obtain ⟨h4, h5, h6⟩ := ih d1 k1 xs d2 k2 h1 heq2
        refine ⟨h4, by omega, by push_cast at h3 h6 ⊢; omega⟩

/-- Claim C2 (witness): the amended theorem applied to the concrete group
`d2ex` and stream `s2ex`: the group of 2 dice with budget 1 ends with budget
0 after consuming 3 draws (2 dice + 1 shared reroll). -/
theorem C2_amended_witness :
    (0 : Int) ≤ d2ex.n_rerolls ∧
    (0 ≤ ({ d2ex with n_rerolls := 0 } : dice).n_rerolls ∧
      ({ d2ex with n_rerolls := 0 } : dice).n_rerolls ≤ d2ex.n_rerolls ∧
      ((3 : Nat) : Int) = (0 : Nat) + (2 : Nat) +
        (d2ex.n_rerolls - ({ d2ex with n_rerolls := 0 } : dice).n_rerolls)) :=
  ⟨by decide, C2_amended 10 s2ex 2 d2ex 0 [1, 1] { d2ex with n_rerolls := 0 } 3
    (by decide) rfl⟩

/-- Claim C8: whenever the reroll recursion terminates, `roll_one` returns a
value `v` with `1 <= v <= face_count`, for every draw stream whose draws are
the values `random.choice(range(n_faces))` can produce. -/
theorem C8_roll_in_range (fuel : Nat) :
    ∀ (d : dice) (s : Nat → Int) (k : Nat) (x : Int) (d' : dice) (k' : Nat),
      (∀ i, 0 ≤ s i ∧ s i < d.n_faces) →
      dice.roll fuel d s k = some (x, d', k') →
      1 ≤ x ∧ x ≤ d.n_faces := by
  induction fuel with
  | zero => intro d s k x d' k' _ h; simp [dice.roll] at h
  | succ fuel ih =>
    intro d s k x d' k' hs h
    simp only [dice.roll] at h
    split at h
    · exact ih { d with n_rerolls := d.n_rerolls - 1 } s (k + 1) x d' k'
        (fun i => hs i) h
    · simp only [Option.some.injEq, Prod.mk.injEq] at h
      obtain ⟨hx, -, -⟩ := h
      subst hx
      have := hs k
      omega

/-- Example die for witnesses: a plain 1d6 with no modifiers. -/
def dW : dice := ⟨6, 1, 0, 0, 0, 0⟩

/-- Example draw stream for witnesses: every draw is 0 (die value 1). -/
def sW0 : Nat → Int := fun _ => 0

/-- Claim C8 (witness): `dW` (a 1d6) with the all-zero draw stream terminates
at value 1, inside [1, 6]. -/
theorem C8_roll_in_range_witness :
    (∀ i, 0 ≤ sW0 i ∧ sW0 i < dW.n_faces) ∧ (1 ≤ (1 : Int) ∧ (1 : Int) ≤ dW.n_faces) :=
  ⟨fun _ => ⟨Int.le_refl 0, by norm_num [sW0, dW]⟩,
   C8_roll_in_range 5 dW sW0 0 1 dW 1 (fun _ => ⟨Int.le_refl 0, by norm_num [sW0, dW]⟩) rfl⟩

/-- A single-die roll mutates only the reroll budget: every other field of
the configuration is unchanged. -/
theorem roll_fields (fuel : Nat) :
    ∀ (d : dice) (s : Nat → Int) (k : Nat) (x : Int) (d' : dice) (k' : Nat),
      dice.roll fuel d s k = some (x, d', k') →
      d'.n_faces = d.n_faces ∧ d'.n_rolls = d.n_rolls ∧
        d'.reroll_threshold = d.reroll_threshold ∧
        d'.n_lowest_dropped = d.n_lowest_dropped ∧
        d'.n_highest_dropped = d.n_highest_dropped := by
  induction fuel with
  | zero => intro d s k x d' k' h; simp [dice.roll] at h
  | succ fuel ih =>
    intro d s k x d' k' h
    simp only [dice.roll] at h
    split at h
    · exact ih { d with n_rerolls := d.n_rerolls - 1 } s (k + 1) x d' k' h
    · simp only [Option.some.injEq, Prod.mk.injEq] at h
      obtain ⟨-, hd, -⟩ := h
      subst hd
      exact ⟨rfl, rfl, rfl, rfl, rfl⟩

/-- Rolling a group mutates only the reroll budget and yields exactly one
result per requested roll. -/
theorem rollList_fields_length (fuel : Nat) (s : Nat → Int) :
    ∀ (n : Nat) (d : dice) (k : Nat) (rolls : List Int) (d' : dice) (k' : Nat),
      rollList fuel s n d k = some (rolls, d', k') →
      rolls.length = n ∧ d'.n_faces = d.n_faces ∧ d'.n_rolls = d.n_rolls ∧
        d'.reroll_threshold = d.reroll_threshold ∧
        d'.n_lowest_dropped = d.n_lowest_dropped ∧
        d'.n_highest_dropped = d.n_highest_dropped := by
  intro n
  induction n with
  | zero =>
    intro d k rolls d' k' h
    simp only [rollList, Option.some.injEq, Prod.mk.injEq] at h
    obtain ⟨hr, hd, -⟩ := h
    subst hr; subst hd
    exact ⟨rfl, rfl, rfl, rfl, rfl, rfl⟩
  | succ n ih =>
    intro d k rolls d' k' h
    simp only [rollList] at h
    split at h
    · cases h
    · rename_i x d1 k1 heq
      split at h
      · cases h
      · rename_i xs d2 k2 heq2
        simp only [Option.some.injEq, Prod.mk.injEq] at h
        obtain ⟨hr, hd, -⟩ := h
        subst hr; subst hd
        obtain ⟨f1, f2, f3, f4, f5⟩ := roll_fields fuel d s k x d1 k1 heq
        obtain ⟨l1, g1, g2, g3, g4, g5⟩ := ih d1 k1 xs d2 k2 heq2
        exact ⟨by simp [l1], by omega, by omega, by omega, by omega, by omega⟩

/-- Claim C7: `roll_group` calls `roll_one` exactly `roll_count` times (the
roll list has length `n_rolls`), leaves the drop counts untouched while
rolling, and returns the sum of the roll list after removing `drop_lowest`
minima and then `drop_highest` maxima, one occurrence at a time with the
extremum recomputed after each removal; on the roll list [1, 2, 3, 4] with
one minimum and one maximum dropped, the kept list is [2, 3] and the
returned sum is 5. -/
theorem C7_roll_group (fuel : Nat) (s : Nat → Int) (d : dice) (k : Nat)
    (rolls : List Int) (d' : dice) (k' : Nat)
    (h : rollList fuel s d.n_rolls.toNat d k = some (rolls, d', k')) :
    rolls.length = d.n_rolls.toNat ∧
    d'.n_lowest_dropped = d.n_lowest_dropped ∧
    d'.n_highest_dropped = d.n_highest_dropped ∧
    dice.roll_n fuel d s k =
      (match dropMinN d'.n_lowest_dropped.toNat rolls with
       | none => none
       | some l1 =>
         match dropMaxN d'.n_highest_dropped.toNat l1 with
         | none => none
         | some l2 => some (l2.sum, d', k')) ∧
    dropMinN 1 [(1 : Int), 2, 3, 4] = some [2, 3, 4] ∧
    dropMaxN 1 [(2 : Int), 3, 4] = some [2, 3] ∧
    ([(2 : Int), 3]).sum = 5 := by
  obtain ⟨hl, -, -, -, h4, h5⟩ := rollList_fields_length fuel s d.n_rolls.toNat d k rolls d' k' h
  refine ⟨hl, h4, h5, ?_, rfl, rfl, rfl⟩
  unfold dice.roll_n
  rw [h]

/-- Claim C7 (witness): a 4d6 group with drop-lowest 1 and drop-highest 1,
on draws 0, 1, 2, 3 (die values 1, 2, 3, 4): the roll list is [1, 2, 3, 4]
and `roll_n` returns the sum 5. -/
theorem C7_roll_group_witness :
    ([(1 : Int), 2, 3, 4]).length = (⟨6, 4, 0, 0, 1, 1⟩ : dice).n_rolls.toNat ∧
    dice.roll_n 2 ⟨6, 4, 0, 0, 1, 1⟩ (fun k => ([0, 1, 2, 3] : List Int).getD k 0) 0 =
      some (5, ⟨6, 4, 0, 0, 1, 1⟩, 4) := by
  have h := C7_roll_group 2 (fun k => ([0, 1, 2, 3] : List Int).getD k 0)
    ⟨6, 4, 0, 0, 1, 1⟩ 0 [1, 2, 3, 4] ⟨6, 4, 0, 0, 1, 1⟩ 4 rfl
  exact ⟨h.1, by rw [h.2.2.2.1]; rfl⟩

/-- A configuration freshly created from a `{count}d{faces}` token has every
modifier field at its default 0. -/
theorem init_defaults (tok : List Char) (d0 : dice) (h : dice.init tok = .ok d0) :
    d0.n_rerolls = 0 ∧ d0.reroll_threshold = 0 ∧
      d0.n_lowest_dropped = 0 ∧ d0.n_highest_dropped = 0 := by
  unfold dice.init at h
  split at h
  · split at h
    · simp only [Except.ok.injEq] at h
      subst h
      exact ⟨rfl, rfl, rfl, rfl⟩
    · cases h
  · cases h

/-- Claim C9: applying reroll-count with literal value 0 stores the budget
-1 (unlimited); any positive value N is stored as exactly N; and a freshly
created configuration (modifier unset) has budget 0, meaning no reroll. -/
theorem C9_reroll_zero_unlimited (d : dice) (N : Int) (tok : List Char) (d0 : dice)
    (hN : 0 < N) (h0 : dice.init tok = .ok d0) :
    d.set 'r' 0 = .ok { d with n_rerolls := -1 } ∧
    d.set 'r' N = .ok { d with n_rerolls := N } ∧
    d0.n_rerolls = 0 := by
  refine ⟨rfl, ?_, (init_defaults tok d0 h0).1⟩
  unfold dice.set
  rw [if_neg (by omega), if_pos rfl]

/-- Claim C9 (witness): the theorem applied at N = 2 and the token "1d6". -/
theorem C9_reroll_zero_unlimited_witness :
    (0 : Int) < 2 ∧ dice.init ['1', 'd', '6'] = .ok dW ∧
    (dW.set 'r' 0 = .ok { dW with n_rerolls := -1 } ∧
      dW.set 'r' 2 = .ok { dW with n_rerolls := 2 } ∧ dW.n_rerolls = 0) :=
  ⟨by decide, rfl, C9_reroll_zero_unlimited dW 2 ['1', 'd', '6'] dW (by decide) rfl⟩


/-- Writing a nonnegative value through `dice.set` keeps the reroll threshold
nonnegative. -/
theorem set_thresh_nonneg (d : dice) (c : Char) (v : Int) (d' : dice)
    (hv : 0 ≤ v) (hd : 0 ≤ d.reroll_threshold) (h : d.set c v = .ok d') :
    0 ≤ d'.reroll_threshold := by
  unfold dice.set at h
  split at h
  · cases h; exact hd
  · split at h
    · cases h; exact hd
    · split at h
      · cases h; exact hv
      · split at h
        · cases h; exact hd
        · split at h
          · cases h; exact hd
          · cases h

/-- `add_spec` only writes values parsed from digit strings, so it keeps the
reroll threshold nonnegative. -/
theorem add_spec_thresh_nonneg (d : dice) (spec : List Char) (d' : dice)
    (hd : 0 ≤ d.reroll_threshold) (h : d.add_spec spec = .ok d') :
    0 ≤ d'.reroll_threshold := by
  unfold dice.add_spec at h
  split at h
  · cases h
  · split at h
    · cases h
    · split at h
      · cases h
      · split at h
        · cases h
        · split at h
          · split at h
            · exact set_thresh_nonneg d _ _ d' (Int.natCast_nonneg _) hd h
            · cases h
          · cases h

/-- Membership in a list after replacing its last element. -/
theorem mem_setLast : ∀ (l : List dice) (d a : dice),
    a ∈ setLast l d → a ∈ l ∨ a = d := by
  intro l
  induction l with
  | nil => intro d a h; simp [setLast] at h
  | cons x rest ih =>
    intro d a h
    cases rest with
    | nil =>
      simp only [setLast, List.mem_singleton] at h
      exact Or.inr h
    | cons y ys =>
      simp only [setLast, List.mem_cons] at h
      rcases h with h | h
      · exact Or.inl (by simp [h])
      · rcases ih d a h with h' | h'
        · exact Or.inl (List.mem_cons_of_mem x h')
        · exact Or.inr h'

/-- The parser's "current" configuration is an element of the list. -/
theorem lastD_mem : ∀ (l : List dice) (d : dice), lastD l = some d → d ∈ l := by
  intro l
  induction l with
  | nil => intro d h; simp [lastD] at h
  | cons x rest ih =>
    intro d h
    cases rest with
    | nil =>
      simp only [lastD, Option.some.injEq] at h
      simp [h]
    | cons y ys =>
      exact List.mem_cons_of_mem x (ih d h)

/-- One parser step keeps every configuration's reroll threshold
nonnegative: new dice start at 0, modifiers write digit-parsed values, and
shorthands change only `n_rolls` and the drop counts. -/
theorem processToken_thresh (ds : List dice) (tok : List Char) (ds' : List dice)
    (h : processToken ds tok = .ok ds')
    (hinv : ∀ d ∈ ds, 0 ≤ d.reroll_threshold) :
    ∀ d ∈ ds', 0 ≤ d.reroll_threshold := by
  unfold processToken at h
  split at h
  · cases h
  · split at h
    · cases hi : dice.init tok with
      | error e => rw [hi] at h; cases h
      | ok d0 =>
        rw [hi] at h
        simp only [Except.map, Except.ok.injEq] at h
        subst h
        intro d hd
        rcases List.mem_append.mp hd with h' | h'
        · exact hinv d h'
        · rw [List.mem_singleton.mp h']
          rw [(init_defaults tok d0 hi).2.1]
    · split at h
      · cases h
      · rename_i last hlast
        have hlastmem := lastD_mem ds last hlast
        split at h
        · cases ha : dice.add_spec last tok with
          | error e => rw [ha] at h; cases h
          | ok nd =>
            rw [ha] at h
            simp only [Except.map, Except.ok.injEq] at h
            subst h
            intro d hd
            rcases mem_setLast ds nd d hd with h' | h'
            · exact hinv d h'
            · subst h'
              exact add_spec_thresh_nonneg last tok d (hinv last hlastmem) ha
        · split at h
          · cases h
          · split at h
            · cases ha : dice.add_spec { last with n_rolls := 2 } ['l', '1'] with
              | error e => rw [ha] at h; cases h
              | ok nd =>
                rw [ha] at h
                simp only [Except.map, Except.ok.injEq] at h
                subst h
                intro d hd
                rcases mem_setLast ds nd d hd with h' | h'
                · exact hinv d h'
                · subst h'
                  exact add_spec_thresh_nonneg { last with n_rolls := 2 } ['l', '1'] d (hinv last hlastmem) ha
            · split at h
              · cases ha : dice.add_spec { last with n_rolls := 2 } ['h', '1'] with
                | error e => rw [ha] at h; cases h
                | ok nd =>
                  rw [ha] at h
                  simp only [Except.map, Except.ok.injEq] at h
                  subst h
                  intro d hd
                  rcases mem_setLast ds nd d hd with h' | h'
                  · exact hinv d h'
                  · subst h'
                    exact add_spec_thresh_nonneg { last with n_rolls := 2 } ['h', '1'] d (hinv last hlastmem) ha
              · split at h
                · cases ha : dice.add_spec { last with n_rolls := 3 } ['l', '2'] with
                  | error e => rw [ha] at h; cases h
                  | ok nd =>
                    rw [ha] at h
                    simp only [Except.map, Except.ok.injEq] at h
                    subst h
                    intro d hd
                    rcases mem_setLast ds nd d hd with h' | h'
                    · exact hinv d h'
                    · subst h'
                      exact add_spec_thresh_nonneg { last with n_rolls := 3 } ['l', '2'] d (hinv last hlastmem) ha
                · simp only [Except.ok.injEq] at h
                  subst h
                  exact hinv

/-- The parse loop keeps every configuration's reroll threshold
nonnegative. -/
theorem parseTokens_thresh : ∀ (toks : List (List Char)) (acc ds : List dice),
    parseTokens toks acc = .ok ds → (∀ d ∈ acc, 0 ≤ d.reroll_threshold) →
    ∀ d ∈ ds, 0 ≤ d.reroll_threshold := by
  intro toks
  induction toks with
  | nil =>
    intro acc ds h hinv
    simp only [parseTokens, Except.ok.injEq] at h
    subst h
    exact hinv
  | cons tok rest ih =>
    intro acc ds h hinv
    simp only [parseTokens] at h
    split at h
    · cases h
    · rename_i acc' hstep
      exact ih acc' ds h (processToken_thresh acc tok acc' hstep hinv)

/-- Claim C10: every configuration produced by the parser and accepted by
the validator has `face_count >= 1` — although `sanitize` has no explicit
positivity check on `n_faces`, the parser only ever stores nonnegative
reroll thresholds, and `sanitize` rejects `reroll_threshold >= n_faces`,
so an accepted configuration has `n_faces > reroll_threshold >= 0` and the
uniform draw of `roll_one` is over a nonempty range. -/
theorem C10_faces_positive (toks : List (List Char)) (ds : List dice) (d : dice)
    (hp : parseRolls toks = .ok ds) (hd : d ∈ ds) (hs : d.sanitize = .ok ()) :
    1 ≤ d.n_faces := by
  have hth : 0 ≤ d.reroll_threshold :=
    parseTokens_thresh toks [] ds hp (by simp) d hd
  unfold dice.sanitize at hs
  split at hs
  · cases hs
  · split at hs
    · cases hs
    · split at hs
      · cases hs
      · rename_i h3
        omega

/-- Claim C10 (witness): the theorem applied to the parse of the single
token "1d6", whose configuration the validator accepts. -/
theorem C10_faces_positive_witness :
    parseRolls [['1', 'd', '6']] = .ok [dW] ∧ dW ∈ [dW] ∧
      dW.sanitize = .ok () ∧ 1 ≤ dW.n_faces :=
  ⟨rfl, List.mem_singleton.mpr rfl, rfl,
   C10_faces_positive [['1', 'd', '6']] [dW] dW rfl (List.mem_singleton.mpr rfl) rfl⟩

/-- The draw-stream cursor after `i` whole trials: the only data that flows
from one trial of `main`'s loops into the next. -/
def streamPosAfterTrials (fuel : Nat) (s : Nat → Int) (ds : List dice) (k : Nat) :
    Nat → Option Nat
  | 0 => some k
  | i + 1 =>
    match streamPosAfterTrials fuel s ds k i with
    | none => none
    | some ki => (rollTrial fuel s ds ki).map (fun p => p.2)

/-- Shifting the cursor history by one completed trial. -/
theorem streamPos_shift (fuel : Nat) (s : Nat → Int) (ds : List dice)
    (k k1 : Nat) (xs : List Int)
    (h : rollTrial fuel s ds k = some (xs, k1)) :
    ∀ i, streamPosAfterTrials fuel s ds k (i + 1) =
      streamPosAfterTrials fuel s ds k1 i := by
  intro i
  induction i with
  | zero => simp [streamPosAfterTrials, h]
  | succ i ih =>
    rw [streamPosAfterTrials]
    rw [ih]
    rfl

/-- Claim C6: every trial starts from a fresh copy of the configurations'
reroll-budget state. In `runTrials` (and likewise in the frequentist loop)
the i-th row equals `rollTrial` applied to the ORIGINAL configuration list
`ds` at the cursor reached after i trials: nothing of a trial's
budget consumption — only the position in the draw stream — is observable in
any later trial. -/
theorem C6_fresh_state_per_trial (fuel : Nat) (s : Nat → Int) (ds : List dice) :
    ∀ (n k : Nat) (res : List (List Int)) (kend : Nat) (i : Nat),
      runTrials fuel s ds n k = some (res, kend) → i < n →
      ∃ ki xs ki', streamPosAfterTrials fuel s ds k i = some ki ∧
        rollTrial fuel s ds ki = some (xs, ki') ∧ res.get? i = some xs := by
  intro n
  induction n with
  | zero => intro k res kend i _ hi; omega
  | succ n ih =>
    intro k res kend i h hi
    simp only [runTrials] at h
    split at h
    · cases h
    · rename_i xs0 k1 heq
      split at h
      · cases h
      · rename_i rest k2 heq2
        simp only [Option.some.injEq, Prod.mk.injEq] at h
        obtain ⟨hr, -⟩ := h
        subst hr
        cases i with
        | zero => exact ⟨k, xs0, k1, rfl, heq, rfl⟩
        | succ i =>
          obtain ⟨ki, xs, ki', hpos, hroll, hget⟩ :=
            ih k1 rest k2 i heq2 (by omega)
          refine ⟨ki, xs, ki', ?_, hroll, hget⟩
          rw [streamPos_shift fuel s ds k k1 xs0 heq i]
          exact hpos

/-- Claim C6 (witness): two trials of a 1d6 group on the all-zero stream;
the second trial (i = 1) is `rollTrial` of the original configuration at
cursor 1. -/
theorem C6_fresh_state_per_trial_witness :
    runTrials 2 sW0 [dW] 2 0 = some ([[1], [1]], 2) ∧ 1 < 2 ∧
    (∃ ki xs ki', streamPosAfterTrials 2 sW0 [dW] 0 1 = some ki ∧
      rollTrial 2 sW0 [dW] ki = some (xs, ki') ∧ ([[1], [1]] : List (List Int)).get? 1 = some xs) :=
  ⟨rfl, by omega,
   C6_fresh_state_per_trial 2 sW0 [dW] 2 0 [[1], [1]] 2 1 rfl (by omega)⟩

/-- Every trial row has exactly one sum per configuration. -/
theorem rollTrial_length (fuel : Nat) (s : Nat → Int) :
    ∀ (ds : List dice) (k : Nat) (xs : List Int) (k' : Nat),
      rollTrial fuel s ds k = some (xs, k') → xs.length = ds.length := by
  intro ds
  induction ds with
  | nil =>
    intro k xs k' h
    simp only [rollTrial, Option.some.injEq, Prod.mk.injEq] at h
    obtain ⟨hx, -⟩ := h
    subst hx
    rfl
  | cons d rest ih =>
    intro k xs k' h
    simp only [rollTrial] at h
    split at h
    · cases h
    · rename_i x d1 k1 heq
      split at h
      · cases h
      · rename_i ys k2 heq2
        simp only [Option.some.injEq, Prod.mk.injEq] at h
        obtain ⟨hx, -⟩ := h
        subst hx
        simp [ih k1 ys k2 heq2]

/-- The explicit-mode loop returns exactly one row per trial, each row of
per-configuration length. -/
theorem runTrials_shape (fuel : Nat) (s : Nat → Int) (ds : List dice) :
    ∀ (n k : Nat) (res : List (List Int)) (kend : Nat),
      runTrials fuel s ds n k = some (res, kend) →
      res.length = n ∧ ∀ xs ∈ res, xs.length = ds.length := by
  intro n
  induction n with
  | zero =>
    intro k res kend h
    simp only [runTrials, Option.some.injEq, Prod.mk.injEq] at h
    obtain ⟨hr, -⟩ := h
    subst hr
    exact ⟨rfl, by simp⟩
  | succ n ih =>
    intro k res kend h
    simp only [runTrials] at h
    split at h
    · cases h
    · rename_i xs0 k1 heq
      split at h
      · cases h
      · rename_i rest k2 heq2
        simp only [Option.some.injEq, Prod.mk.injEq] at h
        obtain ⟨hr, -⟩ := h
        subst hr
        obtain ⟨hl, hall⟩ := ih k1 rest k2 heq2
        refine ⟨by simp [hl], ?_⟩
        intro xs hxs
        rcases List.mem_cons.mp hxs with h' | h'
        · rw [h']
          exact rollTrial_length fuel s ds k xs0 k1 heq
        · exact hall xs h'

/-- Claim C4 (amended): for an explicit trial count N > 0 other than the
frequentist constant 100000, the driver computes `n_tests = N` and the
simulation yields exactly N ordered trial results, each one integer sum per
configuration, never an average. -/
theorem C4_explicit_trials (fuel : Nat) (ds : List dice) (s : Nat → Int)
    (k : Nat) (N : Int) (res : List (List Int)) (kend : Nat)
    (hN : 0 < N) (hNe : N ≠ N_FREQTEST)
    (h : runTrials fuel s ds N.toNat k = some (res, kend)) :
    computeNTests { ntests := some N, freqtest := false } = .ok N ∧
    runSim fuel ds N s k = some (SimOutput.trials res) ∧
    res.length = N.toNat ∧ ∀ xs ∈ res, xs.length = ds.length := by
  obtain ⟨hl, hall⟩ := runTrials_shape fuel s ds N.toNat k res kend h
  refine ⟨?_, ?_, hl, hall⟩
  · unfold computeNTests
    rw [if_neg (by simp)]
    rfl
  · unfold runSim
    rw [if_neg hNe, h]
    rfl

/-- Claim C4 (witness): the amended theorem at N = 2 over a single 1d6: the
output is the two trial rows [[1], [1]]. -/
theorem C4_explicit_trials_witness :
    (0 : Int) < 2 ∧ (2 : Int) ≠ N_FREQTEST ∧
    runTrials 2 sW0 [dW] (2 : Int).toNat 0 = some ([[1], [1]], 2) ∧
    (computeNTests { ntests := some 2, freqtest := false } = .ok 2 ∧
      runSim 2 [dW] 2 sW0 0 = some (SimOutput.trials [[1], [1]]) ∧
      ([[1], [1]] : List (List Int)).length = (2 : Int).toNat ∧
      ∀ xs ∈ ([[1], [1]] : List (List Int)), xs.length = [dW].length) :=
  ⟨by decide, by decide, rfl,
   C4_explicit_trials 2 [dW] sW0 0 2 [[1], [1]] 2 (by decide) (by decide) rfl⟩

/-- Claim C4 (counterexample): an explicitly requested trial count of exactly
100000 (with the frequentist flag off) is accepted by the argument check, yet
the simulation takes the frequentist branch — its output is never the
per-trial form, so this run does not produce 100000 ordered trial results. -/
theorem C4_counterexample :
    computeNTests { ntests := some 100000, freqtest := false } = .ok 100000 ∧
    (runSim 1 [dW] 100000 sW0 0).map SimOutput.isTrials ≠ some true := by
  constructor
  · unfold computeNTests
    rw [if_neg (by simp)]
    rfl
  · unfold runSim
    rw [if_pos (show (100000 : Int) = N_FREQTEST from rfl)]
    cases h : runFreq 1 sW0 [dW] (100000 : Int).toNat 0 (List.replicate [dW].length 0) with
    | none => simp
    | some p => simp [SimOutput.isTrials]
